import Mathlib

/-!
Verification development for the `tape~` Pure Data external
(Airwindows Tape saturation port), file `tape.c`.

The C code is shallowly embedded over `ℝ`: the C type `FLOAT` (double)
becomes `ℝ`, the math.h functions `sin`, `cos`, `tan`, `asin`, `fabs`
become `Real.sin`, `Real.cos`, `Real.tan`, `Real.arcsin`, `abs`, and the
constant `M_PI` becomes `Real.pi`.  Sample buffers become `List ℝ`; the
mutable struct `t_tape` becomes an explicit state record threaded through
the per-sample step.  Names follow the C source.
-/

noncomputable section

namespace Tape

/-- Compile-time constant `INPUT_GAIN` from tape.c. -/
def INPUT_GAIN : ℝ := 1.0

/-- Compile-time constant `HEAD_BUMP` from tape.c. -/
def HEAD_BUMP : ℝ := 0.05

/-- The golden-ratio constant `softness = 0.618033988749894848204586`
used (with the same literal) in `adclip` and in `tape_perform`. -/
def softness : ℝ := 0.618033988749894848204586

/-- One biquad array `FLOAT biquad[9]` of tape.c: indices 2..6 hold the
coefficients written at block start, indices 7..8 hold the delay state,
indices 0..1 are written once at construction and never used. -/
@[ext]
structure Biquad where
  q0 : ℝ
  q1 : ℝ
  q2 : ℝ
  q3 : ℝ
  q4 : ℝ
  q5 : ℝ
  q6 : ℝ
  q7 : ℝ
  q8 : ℝ

/-- The effect state `t_tape` of tape.c (without the Pd glue fields
`x_obj` and `x_f`).  `flip` is the C `int flip` used as a boolean. -/
@[ext]
structure t_tape where
  x_sr : ℝ
  iirMidRollerA : ℝ
  iirMidRollerB : ℝ
  iirHeadBumpA : ℝ
  iirHeadBumpB : ℝ
  biquadA : Biquad
  biquadB : Biquad
  lastSample : ℝ
  flip : Bool

/-- Spiral saturation, `spiral_saturate` of tape.c: clamp the input to
±1.2533141373155 and then apply `sin(x * |x|) / |x|` (0 at 0). -/
def spiral_saturate (input : ℝ) : ℝ :=
  let input := if input > 1.2533141373155 then (1.2533141373155 : ℝ) else input
  let input := if input < -1.2533141373155 then (-1.2533141373155 : ℝ) else input
  let absInput := |input|
  if absInput = 0 then 0 else Real.sin (input * absInput) / absInput

/-- ADClip soft limiting, `adclip` of tape.c.  The C function mutates
`*lastSample` and returns the processed sample; here it returns
(returned sample, new lastSample).  Since the C code ends with
`*lastSample = input; return input;`, the two components coincide. -/
def adclip (input lastSample : ℝ) : ℝ × ℝ :=
  let lastSample :=
    if lastSample ≥ 0.99 then
      if input < 0.99 then 0.99 * softness + input * (1 - softness) else (0.99 : ℝ)
    else lastSample
  let lastSample :=
    if lastSample ≤ -0.99 then
      if input > -0.99 then -0.99 * softness + input * (1 - softness) else (-0.99 : ℝ)
    else lastSample
  let input :=
    if input > 0.99 then
      if lastSample < 0.99 then 0.99 * softness + lastSample * (1 - softness) else (0.99 : ℝ)
    else input
  let input :=
    if input < -0.99 then
      if lastSample > -0.99 then -0.99 * softness + lastSample * (1 - softness) else (-0.99 : ℝ)
    else input
  (input, input)

/-- The all-zero biquad array produced by `tape_new`. -/
def zeroBiquad : Biquad :=
  ⟨0, 0, 0, 0, 0, 0, 0, 0, 0⟩

/-- Construction, `tape_new` of tape.c: all filter, resonator and clipper
memory zeroed, `flip = 0`.  (`x_sr` is set by `tape_dsp` before any
processing; we initialise it to 0 here.) -/
def tape_new : t_tape :=
  { x_sr := 0
    iirMidRollerA := 0
    iirMidRollerB := 0
    iirHeadBumpA := 0
    iirHeadBumpB := 0
    biquadA := zeroBiquad
    biquadB := zeroBiquad
    lastSample := 0
    flip := false }

/-- Rate notification, the `x->x_sr = sp[0]->s_sr` assignment of
`tape_dsp` in tape.c. -/
def tape_dsp (x : t_tape) (sr : ℝ) : t_tape :=
  { x with x_sr := sr }

/-- The block-local coefficients computed at the start of
`tape_perform`. -/
structure Coeffs where
  RollAmount : ℝ
  HeadBumpFreq : ℝ
  a0 : ℝ
  a1 : ℝ
  a2 : ℝ
  b1 : ℝ
  b2 : ℝ

/-- Coefficient derivation from the sample rate, the block-start
computation of `tape_perform` in tape.c (lines 121-135). -/
def deriveCoeffs (sr : ℝ) : Coeffs :=
  let overallscale := sr / 44100
  let RollAmount := (1 - softness) / overallscale
  let HeadBumpFreq := 0.12 / overallscale
  let biquadFreq := 0.0072 / overallscale
  let biquadQ : ℝ := 0.0009
  let K := Real.tan (Real.pi * biquadFreq)
  let norm := 1 / (1 + K / biquadQ + K * K)
  let a0 := K / biquadQ * norm
  let a1 : ℝ := 0
  let a2 := -a0
  let b1 := 2 * (K * K - 1) * norm
  let b2 := (1 - K / biquadQ + K * K) * norm
  ⟨RollAmount, HeadBumpFreq, a0, a1, a2, b1, b2⟩

/-- Modelled from the spec (§4.1 CoefficientDeriver), for comparison
with `deriveCoeffs`: the same formulas with the spec's 16-digit literal
`φ = 0.6180339887498948`. -/
def specCoeffs (sr : ℝ) : Coeffs :=
  let scale := sr / 44100
  let phi : ℝ := 0.6180339887498948
  let rollAmount := (1 - phi) / scale
  let headBumpFreq := 0.12 / scale
  let biquadFreq := 0.0072 / scale
  let Q : ℝ := 0.0009
  let K := Real.tan (Real.pi * biquadFreq)
  let norm := 1 / (1 + K / Q + K * K)
  let a0 := K / Q * norm
  let a1 : ℝ := 0
  let a2 := -a0
  let b1 := 2 * (K * K - 1) * norm
  let b2 := (1 - K / Q + K * K) * norm
  ⟨rollAmount, headBumpFreq, a0, a1, a2, b1, b2⟩

/-- Modelled from the spec (§4.1 CoefficientDeriver) with the reciprocal
golden ratio taken at the precision of the code's literal,
`φ = 0.618033988749894848204586`. -/
def specCoeffsFull (sr : ℝ) : Coeffs :=
  let scale := sr / 44100
  let phi : ℝ := 0.618033988749894848204586
  let rollAmount := (1 - phi) / scale
  let headBumpFreq := 0.12 / scale
  let biquadFreq := 0.0072 / scale
  let Q : ℝ := 0.0009
  let K := Real.tan (Real.pi * biquadFreq)
  let norm := 1 / (1 + K / Q + K * K)
  let a0 := K / Q * norm
  let a1 : ℝ := 0
  let a2 := -a0
  let b1 := 2 * (K * K - 1) * norm
  let b2 := (1 - K / Q + K * K) * norm
  ⟨rollAmount, headBumpFreq, a0, a1, a2, b1, b2⟩

/-- Writing the derived coefficients into both biquad arrays, the
`x->biquadA[2] = x->biquadB[2] = a0; ...` assignments of tape.c. -/
def setCoeffs (x : t_tape) (c : Coeffs) : t_tape :=
  { x with
    biquadA := { x.biquadA with q2 := c.a0, q3 := c.a1, q4 := c.a2, q5 := c.b1, q6 := c.b2 }
    biquadB := { x.biquadB with q2 := c.a0, q3 := c.a1, q4 := c.a2, q5 := c.b1, q6 := c.b2 } }

/-- One-pole roll-off update of the active phase,
`iirMidRoller = iirMidRoller*(1-RollAmount) + inputSample*RollAmount`. -/
def advanceRoller (RollAmount mid inputSample : ℝ) : ℝ :=
  mid * (1 - RollAmount) + inputSample * RollAmount

/-- Head-bump resonator update of the active phase: integrate, cubic
damping, `sin`, biquad (direct form, delay slots 7 and 8), clamp to
[-1, 1], `asin`.  Returns the new head-bump value and the biquad array
with updated delay state. -/
def advanceHeadBump (HeadBumpFreq hb : ℝ) (bq : Biquad) (inputSample : ℝ) : ℝ × Biquad :=
  let hb := hb + inputSample * 0.05
  let hb := hb - hb * hb * hb * HeadBumpFreq
  let hb := Real.sin hb
  let tempSample := hb * bq.q2 + bq.q7
  let q7 := hb * bq.q3 - tempSample * bq.q5 + bq.q8
  let q8 := hb * bq.q4 - tempSample * bq.q6
  let hb := tempSample
  let hb := if hb > 1 then (1 : ℝ) else hb
  let hb := if hb < -1 then (-1 : ℝ) else hb
  (Real.arcsin hb, { bq with q7 := q7, q8 := q8 })

/-- The `if (x->flip) { ... } else { ... }` branch of the per-sample
loop: advance the active phase's roll-off filter and head-bump
resonator, leaving the other phase's substate untouched.  Returns the
updated state (flip not yet toggled) and `HighsSample`. -/
def phaseOut (c : Coeffs) (x : t_tape) (inputSample : ℝ) : t_tape × ℝ :=
  if x.flip then
    let mid := advanceRoller c.RollAmount x.iirMidRollerA inputSample
    let hbq := advanceHeadBump c.HeadBumpFreq x.iirHeadBumpA x.biquadA inputSample
    ({ x with iirMidRollerA := mid, iirHeadBumpA := hbq.1, biquadA := hbq.2 },
      inputSample - mid)
  else
    let mid := advanceRoller c.RollAmount x.iirMidRollerB inputSample
    let hbq := advanceHeadBump c.HeadBumpFreq x.iirHeadBumpB x.biquadB inputSample
    ({ x with iirMidRollerB := mid, iirHeadBumpB := hbq.1, biquadB := hbq.2 },
      inputSample - mid)

/-- High-frequency softening of tape.c: compute
`applySoften = 1 - cos(min(|HighsSample|*1.57079633, 1.57079633))` and
shift the sample against the sign of `HighsSample`. -/
def soften (inputSample HighsSample : ℝ) : ℝ :=
  let applySoften := |HighsSample| * 1.57079633
  let applySoften := if applySoften > 1.57079633 then (1.57079633 : ℝ) else applySoften
  let applySoften := 1 - Real.cos applySoften
  let inputSample := if HighsSample > 0 then inputSample - applySoften else inputSample
  if HighsSample < 0 then inputSample + applySoften else inputSample

/-- One resonance-decay guard step of tape.c:
`if (h > suppress) h -= suppress; if (h < -suppress) h += suppress;`. -/
def suppressStep (suppress h : ℝ) : ℝ :=
  let h := if h > suppress then h - suppress else h
  if h < -suppress then h + suppress else h

/-- The spiral-saturator output for a given state and raw input sample,
as computed inside the per-sample loop (gain, phase branch, softening,
`spiral_saturate`). -/
def satOf (c : Coeffs) (x : t_tape) (inSample : ℝ) : ℝ :=
  spiral_saturate (soften (inSample * INPUT_GAIN) (phaseOut c x (inSample * INPUT_GAIN)).2)

/-- The decay-guard amount `suppress = (1 - fabs(inputSample)) * 0.00013`
of tape.c, as a function of the state and the raw input sample. -/
def suppressOf (c : Coeffs) (x : t_tape) (inSample : ℝ) : ℝ :=
  (1 - |satOf c x inSample|) * 0.00013

/-- One iteration of the `while (n--)` loop of `tape_perform`: input
gain, phase branch, flip toggle, softening, spiral saturation, decay
guard on both head bumps, head-bump mix-in, `adclip`, final hard clip.
Returns the new state and the output sample.  (The C variable
`drySample` is computed but never used and is omitted.) -/
def sampleStep (c : Coeffs) (x : t_tape) (inSample : ℝ) : t_tape × ℝ :=
  let inputSample := inSample * INPUT_GAIN
  let pr := phaseOut c x inputSample
  let x1 := { pr.1 with flip := !pr.1.flip }
  let sat := spiral_saturate (soften inputSample pr.2)
  let suppress := (1 - |sat|) * 0.00013
  let x2 := { x1 with
    iirHeadBumpA := suppressStep suppress x1.iirHeadBumpA
    iirHeadBumpB := suppressStep suppress x1.iirHeadBumpB }
  let mixed := sat + (x2.iirHeadBumpA + x2.iirHeadBumpB) * HEAD_BUMP
  let r := adclip mixed x2.lastSample
  let x3 := { x2 with lastSample := r.2 }
  let outSample := if r.1 > 0.99 then (0.99 : ℝ) else r.1
  let outSample := if outSample < -0.99 then (-0.99 : ℝ) else outSample
  (x3, outSample)

/-- The per-sample loop of `tape_perform` over a buffer. -/
def performLoop (c : Coeffs) (x : t_tape) : List ℝ → t_tape × List ℝ
  | [] => (x, [])
  | i :: rest =>
    let r := sampleStep c x i
    let rr := performLoop c r.1 rest
    (rr.1, r.2 :: rr.2)

/-- One block-processing call, `tape_perform` of tape.c: derive the
coefficients from the stored sample rate, write them into both biquad
arrays, then run the per-sample loop over the input buffer. -/
def tape_perform (x : t_tape) (input : List ℝ) : t_tape × List ℝ :=
  let c := deriveCoeffs x.x_sr
  performLoop c (setCoeffs x c) input

/-- Several consecutive `tape_perform` calls on the same state, with the
produced blocks concatenated. -/
def performBlocks (x : t_tape) : List (List ℝ) → t_tape × List ℝ
  | [] => (x, [])
  | b :: bs =>
    let r := tape_perform x b
    let rr := performBlocks r.1 bs
    (rr.1, r.2 ++ rr.2)

/-- Feeding a sequence of samples through `adclip` alone, threading the
`lastSample` memory; returns the final memory and the output list. -/
def adclipRun : ℝ → List ℝ → ℝ × List ℝ
  | m, [] => (m, [])
  | m, i :: rest =>
    let r := adclip i m
    let rr := adclipRun r.2 rest
    (rr.1, r.1 :: rr.2)

/-- Pointwise predicate over a sample buffer (kept as a plain recursive
definition so statements about whole buffers carry no side conditions). -/
def ListAll (p : ℝ → Prop) : List ℝ → Prop
  | [] => True
  | a :: l => p a ∧ ListAll p l

/-- The clamp-to-±1.2533141373155 part of `spiral_saturate`, written as
one nested conditional. -/
def satClamp (y : ℝ) : ℝ :=
  if y > 1.2533141373155 then (1.2533141373155 : ℝ)
  else if y < -1.2533141373155 then (-1.2533141373155 : ℝ) else y

/-- The clipper memory after feeding `n` constant samples of value 1.0
from the freshly constructed memory 0. -/
def clipOnesMem (n : ℕ) : ℝ :=
  (adclipRun 0 (List.replicate n 1)).1

/-- The state's biquad arrays hold exactly the coefficients `c` in
slots 2..6 (the situation established by the block-start assignments of
`tape_perform`). -/
def hasCoeffs (x : t_tape) (c : Coeffs) : Prop :=
  x.biquadA.q2 = c.a0 ∧ x.biquadA.q3 = c.a1 ∧ x.biquadA.q4 = c.a2 ∧
  x.biquadA.q5 = c.b1 ∧ x.biquadA.q6 = c.b2 ∧
  x.biquadB.q2 = c.a0 ∧ x.biquadB.q3 = c.a1 ∧ x.biquadB.q4 = c.a2 ∧
  x.biquadB.q5 = c.b1 ∧ x.biquadB.q6 = c.b2

/-! ### Basic bounds on the stateless shapers -/

lemma abs_sin_le_one (t : ℝ) : |Real.sin t| ≤ 1 :=
  abs_le.mpr ⟨Real.neg_one_le_sin t, Real.sin_le_one t⟩

lemma sin_mul_abs_div_abs_le_one (w : ℝ) : |Real.sin (w * |w|) / (|w|)| ≤ 1 := by
  rcases eq_or_ne w 0 with rfl | h
  · simp
  · have hw : 0 < |w| := abs_pos.mpr h
    rw [abs_div, abs_abs, div_le_one hw]
    rcases le_or_lt 1 |w| with h1 | h1
    · exact (abs_sin_le_one _).trans h1
    · calc |Real.sin (w * |w|)| ≤ |(w * |w|)| := Real.abs_sin_le_abs
        _ = |w| * |w| := by rw [abs_mul, abs_abs]
        _ ≤ 1 * |w| := by nlinarith
        _ = |w| := one_mul _

lemma sin_mul_abs_div_abs_le_abs (w : ℝ) : |Real.sin (w * |w|) / (|w|)| ≤ |w| := by
  rcases eq_or_ne w 0 with rfl | h
  · simp
  · have hw : 0 < |w| := abs_pos.mpr h
    rw [abs_div, abs_abs, div_le_iff₀ hw]
    rcases le_or_lt 1 |w| with h1 | h1
    · calc |Real.sin (w * |w|)| ≤ 1 := abs_sin_le_one _
        _ ≤ |w| * |w| := by nlinarith
    · calc |Real.sin (w * |w|)| ≤ |(w * |w|)| := Real.abs_sin_le_abs
        _ = |w| * |w| := by rw [abs_mul, abs_abs]

lemma spiral_saturate_eq (y : ℝ) :
    spiral_saturate y =
      if |satClamp y| = 0 then 0
      else Real.sin (satClamp y * |satClamp y|) / (|satClamp y|) := by
  simp only [spiral_saturate, satClamp]
  by_cases h1 : y > 1.2533141373155
  · simp only [if_pos h1]
    norm_num
  · simp only [if_neg h1]

lemma abs_satClamp_le_abs (y : ℝ) : |satClamp y| ≤ |y| := by
  simp only [satClamp]
  split_ifs with h1 h2
  · rw [abs_of_pos (by norm_num : (0:ℝ) < 1.2533141373155)]
    exact le_trans (by linarith) (le_abs_self y)
  · rw [abs_of_neg (by norm_num : (-1.2533141373155:ℝ) < 0)]
    exact le_trans (by linarith [neg_le_abs y]) (le_refl _)
  · exact le_refl _

lemma abs_spiral_saturate_le_one (y : ℝ) : |spiral_saturate y| ≤ 1 := by
  rw [spiral_saturate_eq]
  split_ifs with h
  · simp
  · exact sin_mul_abs_div_abs_le_one _

lemma abs_spiral_saturate_le_abs (y : ℝ) : |spiral_saturate y| ≤ |y| := by
  rw [spiral_saturate_eq]
  split_ifs with h
  · simp only [abs_zero]
    exact abs_nonneg y
  · exact le_trans (sin_mul_abs_div_abs_le_abs _) (abs_satClamp_le_abs y)

/-! ### The decay-guard step -/

lemma suppressStep_abs_le (sup h : ℝ) (hs : 0 ≤ sup) : |suppressStep sup h| ≤ |h| := by
  simp only [suppressStep]
  split_ifs <;> cases abs_cases h <;> rw [abs_le] <;> constructor <;> linarith

lemma suppressStep_move_le (sup h : ℝ) (hs : 0 ≤ sup) :
    |h - suppressStep sup h| ≤ sup := by
  simp only [suppressStep]
  split_ifs <;> rw [abs_le] <;> constructor <;> linarith

lemma suppressStep_same_sign (sup h : ℝ) (hs : 0 ≤ sup) :
    0 ≤ h * suppressStep sup h := by
  simp only [suppressStep]
  split_ifs <;> nlinarith

/-! ### The soft clipper -/

lemma adclip_snd_eq_fst (input m : ℝ) : (adclip input m).2 = (adclip input m).1 := rfl

set_option maxHeartbeats 1600000 in
lemma abs_adclip_le (input m : ℝ) (h : |m| ≤ 0.99) : |(adclip input m).1| ≤ 0.99 := by
  rcases abs_le.mp h with ⟨hlo, hhi⟩
  simp only [adclip, softness]
  split_ifs <;> rw [abs_le] <;> constructor <;> linarith

lemma adclipRun_inv (l : List ℝ) : ∀ m : ℝ, |m| ≤ 0.99 →
    |(adclipRun m l).1| ≤ 0.99 ∧
      ListAll (fun y => -0.99 ≤ y ∧ y ≤ 0.99) (adclipRun m l).2 := by
  induction l with
  | nil => exact fun m hm => ⟨hm, trivial⟩
  | cons i rest ih =>
    intro m hm
    have hstep : |(adclip i m).1| ≤ 0.99 := abs_adclip_le i m hm
    have hstep2 : |(adclip i m).2| ≤ 0.99 := by rw [adclip_snd_eq_fst]; exact hstep
    have hrec := ih (adclip i m).2 hstep2
    refine ⟨hrec.1, abs_le.mp hstep, hrec.2⟩

lemma adclip_one_mem (m : ℝ) (h0 : 0 ≤ m) (h1 : m < 0.99) :
    (adclip 1 m).2 = 0.99 * softness + m * (1 - softness) := by
  have hs0 : (0:ℝ) < softness := by norm_num [softness]
  have hs1 : softness < 1 := by norm_num [softness]
  simp only [adclip]
  rw [if_neg (by linarith : ¬ m ≥ 0.99), if_neg (by linarith : ¬ m ≤ -0.99),
    if_pos (by norm_num : (1:ℝ) > 0.99), if_pos h1,
    if_neg (by nlinarith : ¬ 0.99 * softness + m * (1 - softness) < -0.99)]

lemma adclipRun_ones_closed (n : ℕ) : ∀ m : ℝ, 0 ≤ m → m < 0.99 →
    (adclipRun m (List.replicate n 1)).1 =
      0.99 - (0.99 - m) * (1 - softness) ^ n := by
  induction n with
  | zero => intro m _ _; simp [adclipRun]
  | succ k ih =>
    intro m h0 h1
    have hs1 : (0:ℝ) < softness := by norm_num [softness]
    have hs2 : softness < 1 := by norm_num [softness]
    have hnext : (adclip 1 m).2 = 0.99 * softness + m * (1 - softness) :=
      adclip_one_mem m h0 h1
    have hn0 : 0 ≤ (adclip 1 m).2 := by rw [hnext]; nlinarith
    have hn1 : (adclip 1 m).2 < 0.99 := by rw [hnext]; nlinarith
    have : (adclipRun m (List.replicate (k + 1) 1)).1 =
        (adclipRun (adclip 1 m).2 (List.replicate k 1)).1 := by
      simp [List.replicate_succ, adclipRun]
    rw [this, ih _ hn0 hn1, hnext]
    ring

lemma clipOnesMem_eq (n : ℕ) :
    clipOnesMem n = 0.99 - 0.99 * (1 - softness) ^ n := by
  have := adclipRun_ones_closed n 0 (le_refl 0) (by norm_num)
  simpa [clipOnesMem] using this

lemma clipOnesMem_lt (n : ℕ) : clipOnesMem n < 0.99 := by
  rw [clipOnesMem_eq]
  have h1 : (0:ℝ) < 1 - softness := by norm_num [softness]
  have h2 : (0:ℝ) < (1 - softness) ^ n := pow_pos h1 n
  nlinarith

lemma clipOnesMem_strictMono (n : ℕ) : clipOnesMem n < clipOnesMem (n + 1) := by
  rw [clipOnesMem_eq, clipOnesMem_eq]
  have h1 : (0:ℝ) < 1 - softness := by norm_num [softness]
  have h3 : softness < 1 := by norm_num [softness]
  have h2 : (0:ℝ) < (1 - softness) ^ n := pow_pos h1 n
  have hps : (1 - softness) ^ (n + 1) = (1 - softness) ^ n * (1 - softness) :=
    pow_succ _ _
  rw [hps]
  have h4 : (0:ℝ) < softness := by norm_num [softness]
  have key : (1 - softness) ^ n * (1 - softness) < (1 - softness) ^ n * 1 :=
    mul_lt_mul_of_pos_left (by linarith) h2
  rw [mul_one] at key
  linarith

lemma clipOnesMem_tendsto :
    Filter.Tendsto clipOnesMem Filter.atTop (nhds 0.99) := by
  have h1 : (0:ℝ) ≤ 1 - softness := by norm_num [softness]
  have h2 : (1 - softness : ℝ) < 1 := by norm_num [softness]
  have hp : Filter.Tendsto (fun n : ℕ => (1 - softness) ^ n)
      Filter.atTop (nhds 0) :=
    tendsto_pow_atTop_nhds_zero_of_lt_one h1 h2
  have hm : Filter.Tendsto (fun n : ℕ => 0.99 - 0.99 * (1 - softness) ^ n)
      Filter.atTop (nhds (0.99 - 0.99 * 0)) :=
    Filter.Tendsto.const_sub _ (Filter.Tendsto.const_mul _ hp)
  simp only [mul_zero, sub_zero] at hm
  exact hm.congr fun n => (clipOnesMem_eq n).symm

/-! ### Structural facts about the per-sample step -/

lemma advanceHeadBump_coeffs (f hb : ℝ) (bq : Biquad) (i : ℝ) :
    (advanceHeadBump f hb bq i).2.q2 = bq.q2 ∧
    (advanceHeadBump f hb bq i).2.q3 = bq.q3 ∧
    (advanceHeadBump f hb bq i).2.q4 = bq.q4 ∧
    (advanceHeadBump f hb bq i).2.q5 = bq.q5 ∧
    (advanceHeadBump f hb bq i).2.q6 = bq.q6 := by
  simp [advanceHeadBump]

lemma phaseOut_false (c : Coeffs) (x : t_tape) (i : ℝ) (h : x.flip = false) :
    phaseOut c x i =
      ({ x with
          iirMidRollerB := advanceRoller c.RollAmount x.iirMidRollerB i
          iirHeadBumpB := (advanceHeadBump c.HeadBumpFreq x.iirHeadBumpB x.biquadB i).1
          biquadB := (advanceHeadBump c.HeadBumpFreq x.iirHeadBumpB x.biquadB i).2 },
        i - advanceRoller c.RollAmount x.iirMidRollerB i) := by
  simp [phaseOut, h]

lemma phaseOut_true (c : Coeffs) (x : t_tape) (i : ℝ) (h : x.flip = true) :
    phaseOut c x i =
      ({ x with
          iirMidRollerA := advanceRoller c.RollAmount x.iirMidRollerA i
          iirHeadBumpA := (advanceHeadBump c.HeadBumpFreq x.iirHeadBumpA x.biquadA i).1
          biquadA := (advanceHeadBump c.HeadBumpFreq x.iirHeadBumpA x.biquadA i).2 },
        i - advanceRoller c.RollAmount x.iirMidRollerA i) := by
  simp [phaseOut, h]

lemma phaseOut_x_sr (c : Coeffs) (x : t_tape) (i : ℝ) :
    (phaseOut c x i).1.x_sr = x.x_sr := by
  cases hx : x.flip
  · rw [phaseOut_false c x i hx]
  · rw [phaseOut_true c x i hx]

lemma phaseOut_lastSample (c : Coeffs) (x : t_tape) (i : ℝ) :
    (phaseOut c x i).1.lastSample = x.lastSample := by
  cases hx : x.flip
  · rw [phaseOut_false c x i hx]
  · rw [phaseOut_true c x i hx]

lemma phaseOut_flip (c : Coeffs) (x : t_tape) (i : ℝ) :
    (phaseOut c x i).1.flip = x.flip := by
  cases hx : x.flip
  · rw [phaseOut_false c x i hx, hx]
  · rw [phaseOut_true c x i hx, hx]

lemma phaseOut_coeffs (c : Coeffs) (x : t_tape) (i : ℝ) :
    (phaseOut c x i).1.biquadA.q2 = x.biquadA.q2 ∧
    (phaseOut c x i).1.biquadA.q3 = x.biquadA.q3 ∧
    (phaseOut c x i).1.biquadA.q4 = x.biquadA.q4 ∧
    (phaseOut c x i).1.biquadA.q5 = x.biquadA.q5 ∧
    (phaseOut c x i).1.biquadA.q6 = x.biquadA.q6 ∧
    (phaseOut c x i).1.biquadB.q2 = x.biquadB.q2 ∧
    (phaseOut c x i).1.biquadB.q3 = x.biquadB.q3 ∧
    (phaseOut c x i).1.biquadB.q4 = x.biquadB.q4 ∧
    (phaseOut c x i).1.biquadB.q5 = x.biquadB.q5 ∧
    (phaseOut c x i).1.biquadB.q6 = x.biquadB.q6 := by
  cases hx : x.flip
  · rw [phaseOut_false c x i hx]
    exact ⟨rfl, rfl, rfl, rfl, rfl,
      (advanceHeadBump_coeffs _ _ _ _).1, (advanceHeadBump_coeffs _ _ _ _).2.1,
      (advanceHeadBump_coeffs _ _ _ _).2.2.1, (advanceHeadBump_coeffs _ _ _ _).2.2.2.1,
      (advanceHeadBump_coeffs _ _ _ _).2.2.2.2⟩
  · rw [phaseOut_true c x i hx]
    exact ⟨(advanceHeadBump_coeffs _ _ _ _).1, (advanceHeadBump_coeffs _ _ _ _).2.1,
      (advanceHeadBump_coeffs _ _ _ _).2.2.1, (advanceHeadBump_coeffs _ _ _ _).2.2.2.1,
      (advanceHeadBump_coeffs _ _ _ _).2.2.2.2, rfl, rfl, rfl, rfl, rfl⟩

lemma sampleStep_x_sr (c : Coeffs) (x : t_tape) (i : ℝ) :
    (sampleStep c x i).1.x_sr = x.x_sr := by
  simp only [sampleStep]
  exact phaseOut_x_sr c x _

lemma sampleStep_flip (c : Coeffs) (x : t_tape) (i : ℝ) :
    (sampleStep c x i).1.flip = !x.flip := by
  simp only [sampleStep]
  rw [phaseOut_flip]

lemma sampleStep_coeffs (c : Coeffs) (x : t_tape) (i : ℝ) :
    (sampleStep c x i).1.biquadA.q2 = x.biquadA.q2 ∧
    (sampleStep c x i).1.biquadA.q3 = x.biquadA.q3 ∧
    (sampleStep c x i).1.biquadA.q4 = x.biquadA.q4 ∧
    (sampleStep c x i).1.biquadA.q5 = x.biquadA.q5 ∧
    (sampleStep c x i).1.biquadA.q6 = x.biquadA.q6 ∧
    (sampleStep c x i).1.biquadB.q2 = x.biquadB.q2 ∧
    (sampleStep c x i).1.biquadB.q3 = x.biquadB.q3 ∧
    (sampleStep c x i).1.biquadB.q4 = x.biquadB.q4 ∧
    (sampleStep c x i).1.biquadB.q5 = x.biquadB.q5 ∧
    (sampleStep c x i).1.biquadB.q6 = x.biquadB.q6 := by
  simp only [sampleStep]
  exact phaseOut_coeffs c x _

/-! ### Block processing: coefficients and block-size invariance -/

lemma setCoeffs_hasCoeffs (x : t_tape) (c : Coeffs) : hasCoeffs (setCoeffs x c) c := by
  simp [setCoeffs, hasCoeffs]

lemma setCoeffs_x_sr (x : t_tape) (c : Coeffs) : (setCoeffs x c).x_sr = x.x_sr := rfl

lemma setCoeffs_of_hasCoeffs (x : t_tape) (c : Coeffs) (h : hasCoeffs x c) :
    setCoeffs x c = x := by
  obtain ⟨h1, h2, h3, h4, h5, h6, h7, h8, h9, h10⟩ := h
  simp only [setCoeffs]
  ext <;> simp [h1, h2, h3, h4, h5, h6, h7, h8, h9, h10]

lemma sampleStep_hasCoeffs (c : Coeffs) (x : t_tape) (i : ℝ)
    (h : hasCoeffs x c) : hasCoeffs (sampleStep c x i).1 c := by
  obtain ⟨h1, h2, h3, h4, h5, h6, h7, h8, h9, h10⟩ := h
  obtain ⟨g1, g2, g3, g4, g5, g6, g7, g8, g9, g10⟩ := sampleStep_coeffs c x i
  exact ⟨g1.trans h1, g2.trans h2, g3.trans h3, g4.trans h4, g5.trans h5,
    g6.trans h6, g7.trans h7, g8.trans h8, g9.trans h9, g10.trans h10⟩

lemma performLoop_x_sr (c : Coeffs) (l : List ℝ) : ∀ x : t_tape,
    (performLoop c x l).1.x_sr = x.x_sr := by
  induction l with
  | nil => intro x; rfl
  | cons i rest ih =>
    intro x
    simp only [performLoop]
    rw [ih, sampleStep_x_sr]

lemma performLoop_hasCoeffs (c : Coeffs) (l : List ℝ) : ∀ x : t_tape,
    hasCoeffs x c → hasCoeffs (performLoop c x l).1 c := by
  induction l with
  | nil => intro x h; exact h
  | cons i rest ih =>
    intro x h
    simp only [performLoop]
    exact ih _ (sampleStep_hasCoeffs c x i h)

lemma performLoop_append (c : Coeffs) (l1 l2 : List ℝ) : ∀ x : t_tape,
    performLoop c x (l1 ++ l2) =
      ((performLoop c (performLoop c x l1).1 l2).1,
        (performLoop c x l1).2 ++ (performLoop c (performLoop c x l1).1 l2).2) := by
  induction l1 with
  | nil => intro x; simp [performLoop]
  | cons i rest ih =>
    intro x
    simp [List.cons_append, performLoop, ih]

lemma tape_perform_x_sr (x : t_tape) (l : List ℝ) :
    (tape_perform x l).1.x_sr = x.x_sr := by
  simp only [tape_perform]
  rw [performLoop_x_sr, setCoeffs_x_sr]

lemma tape_perform_append (x : t_tape) (l1 l2 : List ℝ) :
    tape_perform x (l1 ++ l2) =
      ((tape_perform (tape_perform x l1).1 l2).1,
        (tape_perform x l1).2 ++ (tape_perform (tape_perform x l1).1 l2).2) := by
  have hsr : (tape_perform x l1).1.x_sr = x.x_sr := tape_perform_x_sr x l1
  have hc : hasCoeffs (tape_perform x l1).1 (deriveCoeffs x.x_sr) :=
    performLoop_hasCoeffs _ _ _ (setCoeffs_hasCoeffs x _)
  have expand : tape_perform (tape_perform x l1).1 l2 =
      performLoop (deriveCoeffs x.x_sr) (tape_perform x l1).1 l2 := by
    have e1 : tape_perform (tape_perform x l1).1 l2 =
        performLoop (deriveCoeffs (tape_perform x l1).1.x_sr)
          (setCoeffs (tape_perform x l1).1
            (deriveCoeffs (tape_perform x l1).1.x_sr)) l2 := rfl
    rw [e1, hsr, setCoeffs_of_hasCoeffs _ _ hc]
  rw [expand]
  have e2 : tape_perform x (l1 ++ l2) =
      performLoop (deriveCoeffs x.x_sr) (setCoeffs x (deriveCoeffs x.x_sr))
        (l1 ++ l2) := rfl
  rw [e2, performLoop_append]
  rfl

lemma tape_perform_flatten (x : t_tape) (b : List ℝ) (bs : List (List ℝ)) :
    tape_perform x (b :: bs).flatten = performBlocks x (b :: bs) := by
  induction bs generalizing x b with
  | nil =>
    simp only [List.flatten, performBlocks, List.append_nil]
  | cons b2 rest ih =>
    have e1 : (b :: b2 :: rest).flatten = b ++ (b2 :: rest).flatten := rfl
    rw [e1, tape_perform_append, ih]
    rfl

/-! ### Output bounds -/

lemma ListAll_imp {p q : ℝ → Prop} (h : ∀ y, p y → q y) :
    ∀ l : List ℝ, ListAll p l → ListAll q l := by
  intro l
  induction l with
  | nil => intro _; trivial
  | cons a rest ih => exact fun hl => ⟨h a hl.1, ih hl.2⟩

lemma sampleStep_out_bounds (c : Coeffs) (x : t_tape) (i : ℝ) :
    -0.99 ≤ (sampleStep c x i).2 ∧ (sampleStep c x i).2 ≤ 0.99 := by
  simp only [sampleStep]
  split_ifs <;> constructor <;> linarith

lemma performLoop_out_bounds (c : Coeffs) (l : List ℝ) : ∀ x : t_tape,
    ListAll (fun y => -0.99 ≤ y ∧ y ≤ 0.99) (performLoop c x l).2 := by
  induction l with
  | nil => intro x; trivial
  | cons i rest ih =>
    intro x
    exact ⟨sampleStep_out_bounds c x i, ih _⟩

/-! ### Claims -/

/-- C1: every output sample emitted by one `tape_perform` call lies in
the closed interval [-0.99, 0.99], for every input block, every prior
effect state (hence every sample rate stored in it): the final hard
clamp bounds the output regardless of upstream drift. -/
theorem output_within_hard_clamp (x : t_tape) (l : List ℝ) :
    ListAll (fun y => -0.99 ≤ y ∧ y ≤ 0.99) (tape_perform x l).2 := by
  simp only [tape_perform]
  exact performLoop_out_bounds _ _ _

/-- C2: for any starting state (hence any fixed sample rate), processing
ten blocks of 100 samples with consecutive `tape_perform` calls yields
exactly the same output sequence, sample by sample, and the same final
state, as processing their concatenation (length 1000) in a single
call. -/
theorem blockSize_invariance (x : t_tape) (bs : List (List ℝ))
    (hlen : bs.length = 10) (hblocks : ∀ b ∈ bs, b.length = 100) :
    tape_perform x bs.flatten = performBlocks x bs := by
  cases bs with
  | nil => simp at hlen
  | cons b rest => exact tape_perform_flatten x b rest

/-- Witness for C2 at a concrete input: ten blocks of 100 zero
samples. -/
theorem blockSize_invariance_witness :
    (List.replicate 10 (List.replicate 100 (0:ℝ))).length = 10 ∧
    tape_perform (tape_dsp tape_new 44100)
        (List.replicate 10 (List.replicate 100 (0:ℝ))).flatten =
      performBlocks (tape_dsp tape_new 44100)
        (List.replicate 10 (List.replicate 100 (0:ℝ))) :=
  ⟨by simp,
    blockSize_invariance (tape_dsp tape_new 44100)
      (List.replicate 10 (List.replicate 100 (0:ℝ))) (by simp)
      (fun b hb => by rw [List.eq_of_mem_replicate hb]; simp)⟩

/-- C3: for any finite input sequence fed to `adclip` alone starting
from the initial memory 0, every returned value lies strictly between
-1 and 1; feeding the constant sequence 1.0 makes the clipper memory
increase strictly toward 0.99, never equalling or exceeding it, and
converge to 0.99 in the limit. -/
theorem softClipper_bounded_convergent :
    (∀ l : List ℝ, ListAll (fun y => -1 < y ∧ y < 1) (adclipRun 0 l).2) ∧
    (∀ n : ℕ, clipOnesMem n < 0.99) ∧
    (∀ n : ℕ, clipOnesMem n < clipOnesMem (n + 1)) ∧
    Filter.Tendsto clipOnesMem Filter.atTop (nhds 0.99) := by
  refine ⟨fun l => ?_, clipOnesMem_lt, clipOnesMem_strictMono, clipOnesMem_tendsto⟩
  have h := (adclipRun_inv l 0 (by norm_num)).2
  exact ListAll_imp (fun y hy => ⟨by linarith [hy.1], by linarith [hy.2]⟩) _ h

/-! ### Clipper memory invariant through the pipeline -/

lemma sampleStep_clip_inv (c : Coeffs) (x : t_tape) (i : ℝ)
    (h : |x.lastSample| ≤ 0.99) :
    |(sampleStep c x i).1.lastSample| ≤ 0.99 ∧
    (sampleStep c x i).2 = (sampleStep c x i).1.lastSample := by
  simp only [sampleStep, phaseOut_lastSample]
  set M := spiral_saturate
      (soften (i * INPUT_GAIN) (phaseOut c x (i * INPUT_GAIN)).2) +
      ((suppressStep
            ((1 - |spiral_saturate
                (soften (i * INPUT_GAIN) (phaseOut c x (i * INPUT_GAIN)).2)|) * 0.00013)
            { (phaseOut c x (i * INPUT_GAIN)).1 with
                flip := !(phaseOut c x (i * INPUT_GAIN)).1.flip }.iirHeadBumpA) +
          (suppressStep
            ((1 - |spiral_saturate
                (soften (i * INPUT_GAIN) (phaseOut c x (i * INPUT_GAIN)).2)|) * 0.00013)
            { (phaseOut c x (i * INPUT_GAIN)).1 with
                flip := !(phaseOut c x (i * INPUT_GAIN)).1.flip }.iirHeadBumpB)) *
        HEAD_BUMP with hM
  have h1 : |(adclip M x.lastSample).1| ≤ 0.99 := abs_adclip_le M x.lastSample h
  have h2 : |(adclip M x.lastSample).2| ≤ 0.99 := by
    rw [adclip_snd_eq_fst]; exact h1
  refine ⟨h2, ?_⟩
  rcases abs_le.mp h1 with ⟨hlo, hhi⟩
  rw [if_neg (by linarith : ¬ (adclip M x.lastSample).1 > 0.99),
    if_neg (by linarith : ¬ (adclip M x.lastSample).1 < -0.99), adclip_snd_eq_fst]

lemma performLoop_clip_inv (c : Coeffs) (l : List ℝ) : ∀ x : t_tape,
    |x.lastSample| ≤ 0.99 → |(performLoop c x l).1.lastSample| ≤ 0.99 := by
  induction l with
  | nil => exact fun x h => h
  | cons i rest ih =>
    intro x h
    exact ih _ (sampleStep_clip_inv c x i h).1

lemma setCoeffs_lastSample (x : t_tape) (c : Coeffs) :
    (setCoeffs x c).lastSample = x.lastSample := rfl

/-- C9: if the clipper memory is within [-0.99, 0.99] — as it is at
construction, where it is 0 — then after each processed sample the new
memory is again within [-0.99, 0.99] and the emitted output sample
equals the memory left behind, i.e. the final hard clamp never alters
the `adclip` result; the invariant is preserved by whole `tape_perform`
calls, whose outputs all lie in [-0.99, 0.99]. -/
theorem clipper_invariant_clamp_noop :
    tape_new.lastSample = 0 ∧
    (∀ (c : Coeffs) (x : t_tape) (i : ℝ), |x.lastSample| ≤ 0.99 →
      |(sampleStep c x i).1.lastSample| ≤ 0.99 ∧
      (sampleStep c x i).2 = (sampleStep c x i).1.lastSample) ∧
    (∀ (x : t_tape) (l : List ℝ), |x.lastSample| ≤ 0.99 →
      |(tape_perform x l).1.lastSample| ≤ 0.99 ∧
      ListAll (fun y => -0.99 ≤ y ∧ y ≤ 0.99) (tape_perform x l).2) := by
  refine ⟨rfl, sampleStep_clip_inv, fun x l h => ⟨?_, ?_⟩⟩
  · simp only [tape_perform]
    exact performLoop_clip_inv _ _ _ (by rw [setCoeffs_lastSample]; exact h)
  · simp only [tape_perform]
    exact performLoop_out_bounds _ _ _

/-- Witness for C9 at a concrete input: the freshly constructed state
(memory 0), a zero input sample, coefficients for 44.1 kHz. -/
theorem clipper_invariant_clamp_noop_witness :
    |tape_new.lastSample| ≤ 0.99 ∧
    (sampleStep (deriveCoeffs 44100) tape_new 0).2 =
      (sampleStep (deriveCoeffs 44100) tape_new 0).1.lastSample :=
  ⟨by norm_num [tape_new],
    (clipper_invariant_clamp_noop.2.1 (deriveCoeffs 44100) tape_new 0
      (by norm_num [tape_new])).2⟩

/-! ### The decay guard runs on every sample -/

lemma suppressOf_nonneg (c : Coeffs) (x : t_tape) (i : ℝ) :
    0 ≤ suppressOf c x i := by
  have h := abs_spiral_saturate_le_one
    (soften (i * INPUT_GAIN) (phaseOut c x (i * INPUT_GAIN)).2)
  simp only [suppressOf, satOf]
  nlinarith

lemma sampleStep_headBumps (c : Coeffs) (x : t_tape) (i : ℝ) :
    (sampleStep c x i).1.iirHeadBumpA =
      suppressStep (suppressOf c x i)
        (phaseOut c x (i * INPUT_GAIN)).1.iirHeadBumpA ∧
    (sampleStep c x i).1.iirHeadBumpB =
      suppressStep (suppressOf c x i)
        (phaseOut c x (i * INPUT_GAIN)).1.iirHeadBumpB := by
  constructor
  · simp only [sampleStep, suppressOf, satOf]
  · simp only [sampleStep, suppressOf, satOf]

/-- C7: on every processed sample, whichever phase is active, the decay
guard amount is `suppress = (1 - |saturatedSample|)·0.00013` computed
from the spiral-saturator output; it is nonnegative, and each of the two
head-bump states is moved toward zero by at most `suppress`, never past
zero. -/
theorem decay_guard_every_sample (c : Coeffs) (x : t_tape) (i : ℝ) :
    0 ≤ suppressOf c x i ∧
    (sampleStep c x i).1.iirHeadBumpA =
      suppressStep (suppressOf c x i)
        (phaseOut c x (i * INPUT_GAIN)).1.iirHeadBumpA ∧
    (sampleStep c x i).1.iirHeadBumpB =
      suppressStep (suppressOf c x i)
        (phaseOut c x (i * INPUT_GAIN)).1.iirHeadBumpB ∧
    (∀ h : ℝ,
      |suppressStep (suppressOf c x i) h| ≤ |h| ∧
      |h - suppressStep (suppressOf c x i) h| ≤ suppressOf c x i ∧
      0 ≤ h * suppressStep (suppressOf c x i) h) :=
  ⟨suppressOf_nonneg c x i, (sampleStep_headBumps c x i).1,
    (sampleStep_headBumps c x i).2,
    fun h =>
      ⟨suppressStep_abs_le _ h (suppressOf_nonneg c x i),
        suppressStep_move_le _ h (suppressOf_nonneg c x i),
        suppressStep_same_sign _ h (suppressOf_nonneg c x i)⟩⟩

/-! ### Head-bump state stays within [-pi/2, pi/2] -/

lemma abs_arcsin_le (t : ℝ) : |Real.arcsin t| ≤ Real.pi / 2 :=
  abs_le.mpr ⟨Real.neg_pi_div_two_le_arcsin t, Real.arcsin_le_pi_div_two t⟩

lemma abs_advanceHeadBump_fst (f hb : ℝ) (bq : Biquad) (i : ℝ) :
    |(advanceHeadBump f hb bq i).1| ≤ Real.pi / 2 := by
  simp only [advanceHeadBump]
  exact abs_arcsin_le _

lemma phaseOut_headBump_bounds (c : Coeffs) (x : t_tape) (i : ℝ)
    (hA : |x.iirHeadBumpA| ≤ Real.pi / 2) (hB : |x.iirHeadBumpB| ≤ Real.pi / 2) :
    |(phaseOut c x i).1.iirHeadBumpA| ≤ Real.pi / 2 ∧
    |(phaseOut c x i).1.iirHeadBumpB| ≤ Real.pi / 2 := by
  cases hx : x.flip
  · rw [phaseOut_false c x i hx]
    exact ⟨hA, abs_advanceHeadBump_fst _ _ _ _⟩
  · rw [phaseOut_true c x i hx]
    exact ⟨abs_advanceHeadBump_fst _ _ _ _, hB⟩

lemma sampleStep_headBump_bounds (c : Coeffs) (x : t_tape) (i : ℝ)
    (hA : |x.iirHeadBumpA| ≤ Real.pi / 2) (hB : |x.iirHeadBumpB| ≤ Real.pi / 2) :
    |(sampleStep c x i).1.iirHeadBumpA| ≤ Real.pi / 2 ∧
    |(sampleStep c x i).1.iirHeadBumpB| ≤ Real.pi / 2 := by
  obtain ⟨pA, pB⟩ := phaseOut_headBump_bounds c x (i * INPUT_GAIN) hA hB
  rw [(sampleStep_headBumps c x i).1, (sampleStep_headBumps c x i).2]
  exact ⟨(suppressStep_abs_le _ _ (suppressOf_nonneg c x i)).trans pA,
    (suppressStep_abs_le _ _ (suppressOf_nonneg c x i)).trans pB⟩

lemma performLoop_headBump_inv (c : Coeffs) (l : List ℝ) : ∀ x : t_tape,
    |x.iirHeadBumpA| ≤ Real.pi / 2 → |x.iirHeadBumpB| ≤ Real.pi / 2 →
    |(performLoop c x l).1.iirHeadBumpA| ≤ Real.pi / 2 ∧
    |(performLoop c x l).1.iirHeadBumpB| ≤ Real.pi / 2 := by
  induction l with
  | nil => exact fun x hA hB => ⟨hA, hB⟩
  | cons i rest ih =>
    intro x hA hB
    obtain ⟨hA2, hB2⟩ := sampleStep_headBump_bounds c x i hA hB
    exact ih _ hA2 hB2

lemma setCoeffs_headBumps (x : t_tape) (c : Coeffs) :
    (setCoeffs x c).iirHeadBumpA = x.iirHeadBumpA ∧
    (setCoeffs x c).iirHeadBumpB = x.iirHeadBumpB :=
  ⟨rfl, rfl⟩

/-- C10: from construction onward both head-bump states remain in
[-pi/2, pi/2] after every processed sample — the active phase ends in an
`arcsin`, and the decay guard (whose amount is nonnegative) only moves a
state toward zero — so the head-bump contribution added to the signal on
any sample is bounded in magnitude by `pi * HEAD_BUMP`. -/
theorem headBump_state_bounded :
    |tape_new.iirHeadBumpA| ≤ Real.pi / 2 ∧
    |tape_new.iirHeadBumpB| ≤ Real.pi / 2 ∧
    (∀ (c : Coeffs) (x : t_tape) (i : ℝ),
      |x.iirHeadBumpA| ≤ Real.pi / 2 → |x.iirHeadBumpB| ≤ Real.pi / 2 →
      |(sampleStep c x i).1.iirHeadBumpA| ≤ Real.pi / 2 ∧
      |(sampleStep c x i).1.iirHeadBumpB| ≤ Real.pi / 2 ∧
      |((sampleStep c x i).1.iirHeadBumpA + (sampleStep c x i).1.iirHeadBumpB) *
          HEAD_BUMP| ≤ Real.pi * HEAD_BUMP) ∧
    (∀ (x : t_tape) (l : List ℝ),
      |x.iirHeadBumpA| ≤ Real.pi / 2 → |x.iirHeadBumpB| ≤ Real.pi / 2 →
      |(tape_perform x l).1.iirHeadBumpA| ≤ Real.pi / 2 ∧
      |(tape_perform x l).1.iirHeadBumpB| ≤ Real.pi / 2) := by
  have hzero : |(0:ℝ)| ≤ Real.pi / 2 := by
    rw [abs_zero]
    linarith [Real.pi_pos]
  refine ⟨hzero, hzero, fun c x i hA hB => ?_, fun x l hA hB => ?_⟩
  · obtain ⟨nA, nB⟩ := sampleStep_headBump_bounds c x i hA hB
    refine ⟨nA, nB, ?_⟩
    have hsum : |(sampleStep c x i).1.iirHeadBumpA +
        (sampleStep c x i).1.iirHeadBumpB| ≤ Real.pi := by
      calc |(sampleStep c x i).1.iirHeadBumpA +
            (sampleStep c x i).1.iirHeadBumpB|
          ≤ |(sampleStep c x i).1.iirHeadBumpA| +
            |(sampleStep c x i).1.iirHeadBumpB| := abs_add _ _
        _ ≤ Real.pi / 2 + Real.pi / 2 := add_le_add nA nB
        _ = Real.pi := by ring
    rw [abs_mul, (by norm_num [HEAD_BUMP] : |HEAD_BUMP| = HEAD_BUMP)]
    exact mul_le_mul_of_nonneg_right hsum (by norm_num [HEAD_BUMP])
  · simp only [tape_perform]
    exact performLoop_headBump_inv _ _ _
      (by rw [(setCoeffs_headBumps x _).1]; exact hA)
      (by rw [(setCoeffs_headBumps x _).2]; exact hB)

/-- Witness for C10 at a concrete input: the freshly constructed state,
a zero input sample, coefficients for 44.1 kHz. -/
theorem headBump_state_bounded_witness :
    |tape_new.iirHeadBumpA| ≤ Real.pi / 2 ∧
    |(sampleStep (deriveCoeffs 44100) tape_new 0).1.iirHeadBumpA| ≤ Real.pi / 2 :=
  ⟨headBump_state_bounded.1,
    (headBump_state_bounded.2.2.1 (deriveCoeffs 44100) tape_new 0
      headBump_state_bounded.1 headBump_state_bounded.2.1).1⟩

/-! ### Oddness and continuity of the spiral saturator -/

lemma satClamp_eq_self (y : ℝ) (h1 : -1.2533141373155 ≤ y)
    (h2 : y ≤ 1.2533141373155) : satClamp y = y := by
  simp only [satClamp]
  split_ifs <;> linarith

lemma spiral_saturate_zero : spiral_saturate 0 = 0 := by
  rw [spiral_saturate_eq, satClamp_eq_self 0 (by norm_num) (by norm_num)]
  simp

lemma spiral_saturate_continuousAt_zero : ContinuousAt spiral_saturate 0 := by
  unfold ContinuousAt
  rw [spiral_saturate_zero]
  have hb : ∀ y : ℝ, ‖spiral_saturate y‖ ≤ |y| := fun y => by
    rw [Real.norm_eq_abs]
    exact abs_spiral_saturate_le_abs y
  have hg : Filter.Tendsto (fun y : ℝ => |y|) (nhds 0) (nhds 0) := by
    simpa using continuous_abs.tendsto (0:ℝ)
  exact squeeze_zero_norm hb hg

/-- C8: the spiral saturator is odd on its clamped domain — for every x
in [-1.2533141373155, 1.2533141373155] with x ≠ 0 it satisfies
`spiral_saturate (-x) = -spiral_saturate x` — it maps 0 to 0, and it is
continuous at the origin. -/
theorem spiral_saturator_odd :
    (∀ x : ℝ, -1.2533141373155 ≤ x → x ≤ 1.2533141373155 → x ≠ 0 →
      spiral_saturate (-x) = -spiral_saturate x) ∧
    spiral_saturate 0 = 0 ∧
    ContinuousAt spiral_saturate 0 := by
  refine ⟨fun x h1 h2 h3 => ?_, spiral_saturate_zero,
    spiral_saturate_continuousAt_zero⟩
  rw [spiral_saturate_eq, spiral_saturate_eq, satClamp_eq_self x h1 h2,
    satClamp_eq_self (-x) (by linarith) (by linarith), abs_neg]
  have hx : ¬ |x| = 0 := by simpa using h3
  rw [if_neg hx, if_neg hx, (by ring : -x * |x| = -(x * |x|)), Real.sin_neg,
    neg_div]

/-- Witness for C8 at a concrete input: x = 1. -/
theorem spiral_saturator_odd_witness :
    (-1.2533141373155 ≤ (1:ℝ)) ∧ ((1:ℝ) ≤ 1.2533141373155) ∧ ((1:ℝ) ≠ 0) ∧
    spiral_saturate (-1) = -spiral_saturate 1 :=
  ⟨by norm_num, by norm_num, by norm_num,
    spiral_saturator_odd.1 1 (by norm_num) (by norm_num) (by norm_num)⟩

/-! ### Coefficient derivation versus the spec formulas -/

/-- C5 counterexample: at sample rate 44100 the coefficients computed by
the code differ from the spec's formulas taken literally, because the
code's `softness` literal `0.618033988749894848204586` and the spec's
`φ = 0.6180339887498948` differ as exact numbers (the roll-off
coefficients differ by about 4.8e-17). -/
theorem spec_phi_coeffs_mismatch : specCoeffs 44100 ≠ deriveCoeffs 44100 := by
  intro h
  have h2 := congrArg Coeffs.RollAmount h
  simp only [specCoeffs, deriveCoeffs, softness] at h2
  norm_num at h2

/-- C5 (amended): for every positive sample rate the block-start
coefficients computed by `tape_perform` equal exactly the spec's
formulas with the reciprocal golden ratio taken at the code's precision
(`φ = 0.618033988749894848204586`); they are a pure function of the
sample rate alone, and after any `tape_perform` call both biquad arrays
hold exactly these coefficients. -/
theorem coeffs_match_spec_amended (sr : ℝ) (hsr : 0 < sr) :
    deriveCoeffs sr = specCoeffsFull sr ∧
    (∀ (x : t_tape) (l : List ℝ), x.x_sr = sr →
      hasCoeffs (tape_perform x l).1 (deriveCoeffs sr)) := by
  refine ⟨rfl, fun x l hx => ?_⟩
  have h : hasCoeffs (tape_perform x l).1 (deriveCoeffs x.x_sr) :=
    performLoop_hasCoeffs _ _ _ (setCoeffs_hasCoeffs x _)
  rw [hx] at h
  exact h

/-- Witness for the amended C5 at a concrete input: sample rate
44100. -/
theorem coeffs_match_spec_amended_witness :
    (0:ℝ) < 44100 ∧ deriveCoeffs 44100 = specCoeffsFull 44100 :=
  ⟨by norm_num, (coeffs_match_spec_amended 44100 (by norm_num)).1⟩

/-! ### Phase alternation -/

lemma performLoop_flip (c : Coeffs) (l : List ℝ) : ∀ x : t_tape,
    (performLoop c x l).1.flip = if l.length % 2 = 1 then !x.flip else x.flip := by
  induction l with
  | nil => intro x; simp [performLoop]
  | cons i rest ih =>
    intro x
    simp only [performLoop, List.length_cons]
    rw [ih, sampleStep_flip]
    rcases Nat.mod_two_eq_zero_or_one rest.length with h | h
    · rw [if_neg (by omega), if_pos (by omega)]
    · rw [if_pos h, if_neg (by omega), Bool.not_not]

lemma setCoeffs_flip (x : t_tape) (c : Coeffs) : (setCoeffs x c).flip = x.flip := rfl

lemma tape_perform_flip (x : t_tape) (l : List ℝ) :
    (tape_perform x l).1.flip = if l.length % 2 = 1 then !x.flip else x.flip := by
  simp only [tape_perform]
  rw [performLoop_flip, setCoeffs_flip]

lemma count_odd_range (n : ℕ) :
    ((List.range n).filter (fun i => decide (i % 2 = 1))).length = n / 2 := by
  induction n with
  | zero => rfl
  | succ k ih =>
    rw [List.range_succ, List.filter_append, List.length_append, ih]
    rcases Nat.mod_two_eq_zero_or_one k with h | h
    · have hd : (decide (k % 2 = 1)) = false := by simp [h]
      simp only [List.filter, hd, List.length_nil]
      omega
    · have hd : (decide (k % 2 = 1)) = true := by simp [h]
      simp only [List.filter, hd, List.length_cons, List.length_nil]
      omega

lemma count_even_range (n : ℕ) :
    ((List.range n).filter (fun i => !decide (i % 2 = 1))).length = n - n / 2 := by
  induction n with
  | zero => rfl
  | succ k ih =>
    rw [List.range_succ, List.filter_append, List.length_append, ih]
    rcases Nat.mod_two_eq_zero_or_one k with h | h
    · have hd : (!decide (k % 2 = 1)) = true := by simp [h]
      simp only [List.filter, hd, List.length_cons, List.length_nil]
      omega
    · have hd : (!decide (k % 2 = 1)) = false := by simp [h]
      simp only [List.filter, hd, List.length_nil]
      omega

lemma sampleStep_midRollers (c : Coeffs) (x : t_tape) (i : ℝ) :
    (sampleStep c x i).1.iirMidRollerA =
      (phaseOut c x (i * INPUT_GAIN)).1.iirMidRollerA ∧
    (sampleStep c x i).1.iirMidRollerB =
      (phaseOut c x (i * INPUT_GAIN)).1.iirMidRollerB := by
  constructor
  · simp only [sampleStep]
  · simp only [sampleStep]

lemma sampleStep_biquads (c : Coeffs) (x : t_tape) (i : ℝ) :
    (sampleStep c x i).1.biquadA = (phaseOut c x (i * INPUT_GAIN)).1.biquadA ∧
    (sampleStep c x i).1.biquadB = (phaseOut c x (i * INPUT_GAIN)).1.biquadB := by
  constructor
  · simp only [sampleStep]
  · simp only [sampleStep]

/-- C4: on every sample exactly one of the two phase substates is
advanced, selected by the `flip` flag which toggles each sample: with
`flip = false` the A-side roll-off and biquad memory are untouched and
the B side is advanced (and symmetrically for `flip = true`, the
inactive head bump being subject only to the decay guard); the flag
starts false at construction, so the first sample advances B and the
second A; consequently over any N-sample block processed from a fresh
state, A is advanced on exactly ⌊N/2⌋ samples and B on the remaining
N − ⌊N/2⌋ = ⌈N/2⌉. -/
theorem phase_alternation :
    tape_new.flip = false ∧
    (∀ (c : Coeffs) (x : t_tape) (i : ℝ), x.flip = false →
      (sampleStep c x i).1.flip = true ∧
      (sampleStep c x i).1.iirMidRollerA = x.iirMidRollerA ∧
      (sampleStep c x i).1.biquadA = x.biquadA ∧
      (sampleStep c x i).1.iirHeadBumpA =
        suppressStep (suppressOf c x i) x.iirHeadBumpA ∧
      (sampleStep c x i).1.iirMidRollerB =
        advanceRoller c.RollAmount x.iirMidRollerB (i * INPUT_GAIN) ∧
      (sampleStep c x i).1.biquadB =
        (advanceHeadBump c.HeadBumpFreq x.iirHeadBumpB x.biquadB
          (i * INPUT_GAIN)).2 ∧
      (sampleStep c x i).1.iirHeadBumpB =
        suppressStep (suppressOf c x i)
          (advanceHeadBump c.HeadBumpFreq x.iirHeadBumpB x.biquadB
            (i * INPUT_GAIN)).1) ∧
    (∀ (c : Coeffs) (x : t_tape) (i : ℝ), x.flip = true →
      (sampleStep c x i).1.flip = false ∧
      (sampleStep c x i).1.iirMidRollerB = x.iirMidRollerB ∧
      (sampleStep c x i).1.biquadB = x.biquadB ∧
      (sampleStep c x i).1.iirHeadBumpB =
        suppressStep (suppressOf c x i) x.iirHeadBumpB ∧
      (sampleStep c x i).1.iirMidRollerA =
        advanceRoller c.RollAmount x.iirMidRollerA (i * INPUT_GAIN) ∧
      (sampleStep c x i).1.biquadA =
        (advanceHeadBump c.HeadBumpFreq x.iirHeadBumpA x.biquadA
          (i * INPUT_GAIN)).2 ∧
      (sampleStep c x i).1.iirHeadBumpA =
        suppressStep (suppressOf c x i)
          (advanceHeadBump c.HeadBumpFreq x.iirHeadBumpA x.biquadA
            (i * INPUT_GAIN)).1) ∧
    (∀ (x : t_tape) (l : List ℝ),
      (tape_perform x l).1.flip = if l.length % 2 = 1 then !x.flip else x.flip) ∧
    (∀ (sr : ℝ) (l : List ℝ),
      ((List.range l.length).filter
        (fun i => ((tape_perform (tape_dsp tape_new sr) (l.take i)).1).flip)).length
          = l.length / 2 ∧
      ((List.range l.length).filter
        (fun i => !((tape_perform (tape_dsp tape_new sr) (l.take i)).1).flip)).length
          = l.length - l.length / 2) := by
  have hfalse : ∀ (c : Coeffs) (x : t_tape) (i : ℝ), x.flip = false →
      (sampleStep c x i).1.flip = true ∧
      (sampleStep c x i).1.iirMidRollerA = x.iirMidRollerA ∧
      (sampleStep c x i).1.biquadA = x.biquadA ∧
      (sampleStep c x i).1.iirHeadBumpA =
        suppressStep (suppressOf c x i) x.iirHeadBumpA ∧
      (sampleStep c x i).1.iirMidRollerB =
        advanceRoller c.RollAmount x.iirMidRollerB (i * INPUT_GAIN) ∧
      (sampleStep c x i).1.biquadB =
        (advanceHeadBump c.HeadBumpFreq x.iirHeadBumpB x.biquadB
          (i * INPUT_GAIN)).2 ∧
      (sampleStep c x i).1.iirHeadBumpB =
        suppressStep (suppressOf c x i)
          (advanceHeadBump c.HeadBumpFreq x.iirHeadBumpB x.biquadB
            (i * INPUT_GAIN)).1 := by
    intro c x i hf
    have hp := phaseOut_false c x (i * INPUT_GAIN) hf
    refine ⟨?_, ?_, ?_, ?_, ?_, ?_, ?_⟩
    · rw [sampleStep_flip, hf]
      rfl
    · rw [(sampleStep_midRollers c x i).1, hp]
    · rw [(sampleStep_biquads c x i).1, hp]
    · rw [(sampleStep_headBumps c x i).1, hp]
    · rw [(sampleStep_midRollers c x i).2, hp]
    · rw [(sampleStep_biquads c x i).2, hp]
    · rw [(sampleStep_headBumps c x i).2, hp]
  have htrue : ∀ (c : Coeffs) (x : t_tape) (i : ℝ), x.flip = true →
      (sampleStep c x i).1.flip = false ∧
      (sampleStep c x i).1.iirMidRollerB = x.iirMidRollerB ∧
      (sampleStep c x i).1.biquadB = x.biquadB ∧
      (sampleStep c x i).1.iirHeadBumpB =
        suppressStep (suppressOf c x i) x.iirHeadBumpB ∧
      (sampleStep c x i).1.iirMidRollerA =
        advanceRoller c.RollAmount x.iirMidRollerA (i * INPUT_GAIN) ∧
      (sampleStep c x i).1.biquadA =
        (advanceHeadBump c.HeadBumpFreq x.iirHeadBumpA x.biquadA
          (i * INPUT_GAIN)).2 ∧
      (sampleStep c x i).1.iirHeadBumpA =
        suppressStep (suppressOf c x i)
          (advanceHeadBump c.HeadBumpFreq x.iirHeadBumpA x.biquadA
            (i * INPUT_GAIN)).1 := by
    intro c x i hf
    have hp := phaseOut_true c x (i * INPUT_GAIN) hf
    refine ⟨?_, ?_, ?_, ?_, ?_, ?_, ?_⟩
    · rw [sampleStep_flip, hf]
      rfl
    · rw [(sampleStep_midRollers c x i).2, hp]
    · rw [(sampleStep_biquads c x i).2, hp]
    · rw [(sampleStep_headBumps c x i).2, hp]
    · rw [(sampleStep_midRollers c x i).1, hp]
    · rw [(sampleStep_biquads c x i).1, hp]
    · rw [(sampleStep_headBumps c x i).1, hp]
  refine ⟨rfl, hfalse, htrue, tape_perform_flip, fun sr l => ?_⟩
  have hpred : ∀ i ∈ List.range l.length,
      ((tape_perform (tape_dsp tape_new sr) (l.take i)).1).flip =
        decide (i % 2 = 1) := by
    intro i hi
    rw [List.mem_range] at hi
    rw [tape_perform_flip]
    have hlen : (l.take i).length = i := by
      rw [List.length_take]
      omega
    rw [hlen]
    rcases Nat.mod_two_eq_zero_or_one i with h | h
    · rw [if_neg (by omega)]
      simp [tape_dsp, tape_new, h]
    · rw [if_pos h]
      simp [tape_dsp, tape_new, h]
  constructor
  · rw [List.filter_congr hpred, count_odd_range]
  · rw [List.filter_congr (fun i hi => by rw [hpred i hi] :
      ∀ i ∈ List.range l.length,
        (!((tape_perform (tape_dsp tape_new sr) (l.take i)).1).flip) =
          !decide (i % 2 = 1)), count_even_range]

/-- Witness for C4 at a concrete input: the freshly constructed state at
44.1 kHz has the flag false, and the first processed sample toggles it
to true while leaving the A-side roll-off memory untouched. -/
theorem phase_alternation_witness :
    (tape_dsp tape_new 44100).flip = false ∧
    (sampleStep (deriveCoeffs 44100) (tape_dsp tape_new 44100) 0).1.flip = true ∧
    (sampleStep (deriveCoeffs 44100) (tape_dsp tape_new 44100) 0).1.iirMidRollerA =
      (tape_dsp tape_new 44100).iirMidRollerA :=
  ⟨rfl, (phase_alternation.2.1 (deriveCoeffs 44100) (tape_dsp tape_new 44100) 0 rfl).1,
    (phase_alternation.2.1 (deriveCoeffs 44100) (tape_dsp tape_new 44100) 0 rfl).2.1⟩

end Tape

end
